import Mathlib

/-!
# Verification of the epoll broadcast chat server (`src/epollserver/src/main.rs`)

Shallow embedding of the per-connection buffered line-framing state machine,
the broadcast fan-out and the event-dispatch logic of the single-threaded
epoll chat relay, together with proofs about them.

Modelling decisions:
* A connection's `ClientState` keeps the Rust struct's fields `off`, `needle`
  and `buf`; the TCP stream itself is external, so the connection's file
  descriptor is passed separately (an `Int`, mirroring `i32`), and the outcome
  of the single non-blocking write to each peer is an oracle
  `w : Int → WriteRes`.
* The registry `HashMap<i32, RefCell<ClientState>>` is an association list
  with unique keys; iteration order of the fan-out loop is the list order
  (the map's order is unspecified, which the theorems do not rely on).
* `stream.read` outcomes are modelled by `ReadOutcome`: a successful read
  delivers the list of bytes the OS wrote into `buf[off..BUFFER_SIZE]`
  (so a valid environment satisfies `data.length ≤ BUFFER_SIZE - off`),
  and a failed read carries an `ErrKind` mirroring the `std::io::ErrorKind`
  values the source inspects.
-/

set_option autoImplicit false
set_option maxRecDepth 20000

namespace EpollServer

/-- `const BUFFER_SIZE: usize = 256;` -/
def BUFFER_SIZE : Nat := 256

/-- The fields of `struct ClientState` that the algorithms touch:
`off` (index after last byte in `buf`), `needle` (index after last `\n`),
and the fixed 256-byte buffer (as a length-256 list of byte values). -/
structure ClientState where
  off : Nat
  needle : Nat
  buf : List Nat
deriving DecidableEq

/-- `ClientState::with_stream`: a fresh connection state (zeroed buffer). -/
def ClientState.with_stream : ClientState :=
  { off := 0, needle := 0, buf := List.replicate BUFFER_SIZE 0 }

/-- Outcome of the single non-blocking `stream.write(message)` to one peer:
`Ok(n)` with `n` bytes accepted, or any error. -/
inductive WriteRes where
  | ok (n : Nat)
  | err
deriving DecidableEq

/-- The `std::io::ErrorKind` values the source distinguishes. -/
inductive ErrKind where
  | wouldBlock
  | invalidInput
  | connAborted
  | other
deriving DecidableEq

/-- Outcome of `stream.read(&mut buf[off..BUFFER_SIZE])`: either the bytes the
OS delivered (possibly none, meaning EOF) or an error of some kind. -/
inductive ReadOutcome where
  | ok (data : List Nat)
  | err (k : ErrKind)
deriving DecidableEq

/-- Outcome of `accept_client`: a new stream with its fd, or failure. -/
inductive AcceptOutcome where
  | ok (fd : Int)
  | err
deriving DecidableEq

/-- The backward scan of `check_message`:
`for i in (0..n).rev() { if buf[i] == b'\n' { return i + 1 } }`, else `0`.
Returns one past the index of the last newline (`0x0A`) among the first `n`
bytes, or `0` when there is none. -/
def scanBack (buf : List Nat) : Nat → Nat
  | 0 => 0
  | i + 1 => if buf.getD i 0 = 10 then i + 1 else scanBack buf i

/-- `fn check_message(client, bytes) -> bool`: scan `buf[0 .. off+bytes]`
backward for a newline, setting `needle` one past the last one found (leaving
it unchanged when none is found, as the Rust loop only assigns on a hit), then
advance `off` by `bytes`; report `needle > 0`. -/
def check_message (c : ClientState) (bytes : Nat) : ClientState × Bool :=
  let j := scanBack c.buf (c.off + bytes)
  let needle' := if j = 0 then c.needle else j
  ({ c with needle := needle', off := c.off + bytes }, decide (0 < needle'))

/-- The compaction loop of `broadcast_message`:
`for i in 0..off { buf[i] = buf[needle]; needle += 1 }`, modelled with the
write index `i`, the read index `needle` and the remaining iteration count. -/
def shiftLoop : List Nat → Nat → Nat → Nat → List Nat
  | buf, _, _, 0 => buf
  | buf, i, needle, fuel + 1 =>
      shiftLoop (buf.set i (buf.getD needle 0)) (i + 1) (needle + 1) fuel

/-- The compaction tail of `broadcast_message`: if bytes remain past the
needle, shift `buf[needle..off]` down to index 0 and shrink `off`; otherwise
reset `off`; always reset `needle` to 0. -/
def broadcast_compact (c : ClientState) : ClientState :=
  if c.needle < c.off then
    { c with
      buf := shiftLoop c.buf 0 c.needle (c.off - c.needle)
      off := c.off - c.needle
      needle := 0 }
  else
    { c with off := 0, needle := 0 }

/-- Bytes counted for one peer: `Ok(n) => bytes += n`, errors ignored. -/
def wBytes : WriteRes → Nat
  | .ok n => n
  | .err => 0

/-- The fan-out loop of `broadcast_message`: walk the registry's fds in
order; skip the orator's own fd; attempt exactly one write of `message` to
every other fd, accumulating the accepted byte counts. Returns the list of
attempted writes `(fd, message)` in order, and the byte total. -/
def fanout (ofd : Int) (message : List Nat) (w : Int → WriteRes) :
    List Int → List (Int × List Nat) × Nat
  | [] => ([], 0)
  | fd :: rest =>
      let r := fanout ofd message w rest
      if fd = ofd then r
      else ((fd, message) :: r.1, wBytes (w fd) + r.2)

/-- `fn broadcast_message(orator, clients) -> usize`: write
`orator.buf[0..orator.needle]` once to every registered fd other than the
orator's, then compact the orator's buffer. Returns the compacted orator
state, the attempted writes, and the total bytes accepted. -/
def broadcast_message (ofd : Int) (orator : ClientState) (fds : List Int)
    (w : Int → WriteRes) : ClientState × List (Int × List Nat) × Nat :=
  let message := orator.buf.take orator.needle
  let fo := fanout ofd message w fds
  (broadcast_compact orator, fo.1, fo.2)

/-- The effect of `stream.read` writing the delivered bytes into the buffer
starting at position `off` (the slice `&mut buf[off..BUFFER_SIZE]`). -/
def writeBytes (buf : List Nat) (off : Nat) : List Nat → List Nat
  | [] => buf
  | b :: rest => writeBytes (buf.set off b) (off + 1) rest

/-- Registry lookup, `clients.get(&cfd)`. -/
def registry_get (fd : Int) : List (Int × ClientState) → Option ClientState
  | [] => none
  | (f, c) :: rest => if f = fd then some c else registry_get fd rest

/-- Writing a connection's mutated state back through its `RefCell`:
the entry keyed `fd` (unique in a `HashMap`) now holds `c`. -/
def registry_set (fd : Int) (c : ClientState) (clients : List (Int × ClientState)) :
    List (Int × ClientState) :=
  clients.map (fun p => if p.1 = fd then (fd, c) else p)

/-- `clients.insert(fd, state)`: replace any entry with that key. -/
def registry_insert (fd : Int) (c : ClientState) (clients : List (Int × ClientState)) :
    List (Int × ClientState) :=
  (fd, c) :: clients.filter (fun p => p.1 ≠ fd)

/-- `fn remove_client`: `clients.remove(&cfd)` (the epoll deregistration is an
external effect). Removing an absent key leaves the registry unchanged. -/
def remove_client (cfd : Int) (clients : List (Int × ClientState)) :
    List (Int × ClientState) :=
  clients.filter (fun p => p.1 ≠ cfd)

/-- Result of `handle_client`: the registry afterwards, the broadcast write
attempts made, the telemetry counter (`TOTAL_BYTES_SENT`) afterwards, and the
`Result<()>` value. -/
structure HCOut where
  clients : List (Int × ClientState)
  atts : List (Int × List Nat)
  counter : Nat
  res : Except ErrKind Unit

/-- `fn handle_client(cfd, clients) -> Result<()>`, with the read outcome and
the per-peer write oracle made explicit. Absent client ⇒ `Err(InvalidInput)`;
zero-byte read ⇒ `Err(ConnectionAborted)`; would-block ⇒ `Ok`; other read
error ⇒ propagated; positive read ⇒ `check_message`, and when it reports a
complete line, `broadcast_message` plus the `TOTAL_BYTES_SENT.fetch_add`. -/
def handle_client (cfd : Int) (clients : List (Int × ClientState))
    (r : ReadOutcome) (w : Int → WriteRes) (counter : Nat) : HCOut :=
  match registry_get cfd clients with
  | none => ⟨clients, [], counter, .error .invalidInput⟩
  | some c =>
    match r with
    | .err .wouldBlock => ⟨clients, [], counter, .ok ()⟩
    | .err k => ⟨clients, [], counter, .error k⟩
    | .ok data =>
      if data.length = 0 then
        ⟨clients, [], counter, .error .connAborted⟩
      else
        let pr := check_message { c with buf := writeBytes c.buf c.off data } data.length
        if pr.2 then
          let bm := broadcast_message cfd pr.1 (clients.map Prod.fst) w
          ⟨registry_set cfd bm.1 clients, bm.2.1, counter + bm.2.2, .ok ()⟩
        else
          ⟨registry_set cfd pr.1 clients, [], counter, .ok ()⟩

/-- Result of `handle_event`: registry, broadcast attempts, counter. -/
structure EvOut where
  clients : List (Int × ClientState)
  atts : List (Int × List Nat)
  counter : Nat
deriving DecidableEq

/-- `fn handle_event`: the listening fd's events run `accept_client` and
insert the new connection; any other fd runs `handle_client`, and on an error
other than `InvalidInput` (the absent-client marker) removes the client. -/
def handle_event (evfd listenFd : Int) (acc : AcceptOutcome) (r : ReadOutcome)
    (w : Int → WriteRes) (clients : List (Int × ClientState)) (counter : Nat) :
    EvOut :=
  if evfd = listenFd then
    match acc with
    | .ok fd => ⟨registry_insert fd ClientState.with_stream clients, [], counter⟩
    | .err => ⟨clients, [], counter⟩
  else
    let out := handle_client evfd clients r w counter
    match out.res with
    | .ok _ => ⟨out.clients, out.atts, out.counter⟩
    | .error k =>
        if k = ErrKind.invalidInput then ⟨out.clients, out.atts, out.counter⟩
        else ⟨remove_client evfd out.clients, out.atts, out.counter⟩

/-- The sequence of messages a given fd is asked to accept, in order. -/
def msgsTo (fd : Int) (atts : List (Int × List Nat)) : List (List Nat) :=
  (atts.filter (fun a => a.1 = fd)).map Prod.snd

/-- The per-connection state transitions a connection undergoes during its
life: it starts fresh; a read of `data` bytes (bounded by the remaining
capacity) lands in the buffer at `off` and is scanned by `check_message`;
a dispatch compacts the buffer (the fan-out writes do not touch the orator's
own state). -/
inductive ClientReach : ClientState → Prop
  | init : ClientReach ClientState.with_stream
  | scan (c : ClientState) (data : List Nat) :
      ClientReach c → c.off + data.length ≤ BUFFER_SIZE →
      ClientReach (check_message { c with buf := writeBytes c.buf c.off data } data.length).1
  | dispatch (c : ClientState) :
      ClientReach c → ClientReach (broadcast_compact c)

/-! ## Basic buffer lemmas -/

theorem getD_set_self (l : List Nat) (i v : Nat) (h : i < l.length) :
    (l.set i v).getD i 0 = v := by
  simp [List.getD, List.getElem?_set_self', List.getElem?_eq_getElem, h]

theorem getD_set_ne (l : List Nat) (i j v : Nat) (h : i ≠ j) :
    (l.set i v).getD j 0 = l.getD j 0 := by
  simp [List.getD, List.getElem?_set_ne h]

/-! ## `scanBack` characterisation -/

theorem scanBack_le (buf : List Nat) (n : Nat) : scanBack buf n ≤ n := by
  induction n with
  | zero => simp [scanBack]
  | succ m ih =>
      simp only [scanBack]
      split
      · exact Nat.le_refl _
      · exact Nat.le_trans ih (Nat.le_succ m)

theorem scanBack_eq_zero_iff (buf : List Nat) (n : Nat) :
    scanBack buf n = 0 ↔ ∀ i, i < n → buf.getD i 0 ≠ 10 := by
  induction n with
  | zero => simp [scanBack]
  | succ m ih =>
      simp only [scanBack]
      split
      · constructor
        · intro h; exact absurd h (Nat.succ_ne_zero m)
        · intro h
          exact absurd (by assumption) (h m (Nat.lt_succ_self m))
      · rw [ih]
        constructor
        · intro h i hi
          rcases Nat.lt_succ_iff_lt_or_eq.mp hi with hlt | heq
          · exact h i hlt
          · subst heq; assumption
        · intro h i hi
          exact h i (Nat.lt_succ_of_lt hi)

theorem scanBack_newline (buf : List Nat) (n j : Nat)
    (h : scanBack buf n = j + 1) : buf.getD j 0 = 10 ∧ j < n := by
  induction n with
  | zero => simp [scanBack] at h
  | succ m ih =>
      simp only [scanBack] at h
      split at h
      · have hm : m = j := Nat.succ_injective h
        subst hm
        exact ⟨by assumption, Nat.lt_succ_self m⟩
      · rcases ih h with ⟨h1, h2⟩
        exact ⟨h1, Nat.lt_succ_of_lt h2⟩

theorem scanBack_last (buf : List Nat) (n j : Nat)
    (hj : j < n) (hnl : buf.getD j 0 = 10)
    (hlast : ∀ i, j < i → i < n → buf.getD i 0 ≠ 10) :
    scanBack buf n = j + 1 := by
  induction n with
  | zero => exact absurd hj (Nat.not_lt_zero j)
  | succ m ih =>
      simp only [scanBack]
      rcases Nat.lt_succ_iff_lt_or_eq.mp hj with hlt | heq
      · have hm : buf.getD m 0 ≠ 10 := hlast m hlt (Nat.lt_succ_self m)
        rw [if_neg hm]
        exact ih hlt (fun i h1 h2 => hlast i h1 (Nat.lt_succ_of_lt h2))
      · subst heq
        rw [if_pos hnl]

/-! ## `writeBytes` lemmas -/

theorem writeBytes_length (data : List Nat) :
    ∀ (buf : List Nat) (off : Nat), (writeBytes buf off data).length = buf.length := by
  induction data with
  | nil => intro buf off; rfl
  | cons b rest ih =>
      intro buf off
      simp [writeBytes, ih]

theorem writeBytes_getD_lt (data : List Nat) :
    ∀ (buf : List Nat) (off j : Nat), j < off →
      (writeBytes buf off data).getD j 0 = buf.getD j 0 := by
  induction data with
  | nil => intro buf off j _; rfl
  | cons b rest ih =>
      intro buf off j hj
      simp only [writeBytes]
      rw [ih (buf.set off b) (off + 1) j (Nat.lt_succ_of_lt hj)]
      exact getD_set_ne buf off j b (Nat.ne_of_gt hj)

theorem writeBytes_getD (data : List Nat) :
    ∀ (buf : List Nat) (off k : Nat), off + data.length ≤ buf.length →
      k < data.length →
      (writeBytes buf off data).getD (off + k) 0 = data.getD k 0 := by
  induction data with
  | nil => intro buf off k _ hk; exact absurd hk (Nat.not_lt_zero k)
  | cons b rest ih =>
      intro buf off k hcap hk
      simp only [writeBytes]
      cases k with
      | zero =>
          exact (writeBytes_getD_lt rest (buf.set off b) (off + 1) off
              (Nat.lt_succ_self off)).trans
            (getD_set_self buf off b
              (Nat.lt_of_lt_of_le (Nat.lt_add_of_pos_right (Nat.succ_pos _)) hcap))
      | succ j =>
          have harr : off + (j + 1) = (off + 1) + j := by omega
          rw [harr]
          rw [ih (buf.set off b) (off + 1) j
            (by simp only [List.length_set]
                simp only [List.length_cons] at hcap
                omega)
            (Nat.lt_of_succ_lt_succ hk)]
          rfl

theorem writeBytes_take (data : List Nat) (buf : List Nat) (m : Nat)
    (hm : m ≤ data.length) (hcap : data.length ≤ buf.length) :
    (writeBytes buf 0 data).take m = data.take m := by
  apply List.ext_getElem?
  intro n
  by_cases hn : n < m
  · rw [List.getElem?_take, List.getElem?_take, if_pos hn, if_pos hn]
    have hn1 : n < (writeBytes buf 0 data).length := by
      rw [writeBytes_length]; omega
    have hn2 : n < data.length := by omega
    rw [List.getElem?_eq_getElem hn1, List.getElem?_eq_getElem hn2]
    have := writeBytes_getD data buf 0 n (by omega) hn2
    simp only [Nat.zero_add] at this
    simp only [List.getD, List.get?_eq_getElem?, List.getElem?_eq_getElem hn1,
      List.getElem?_eq_getElem hn2, Option.getD_some] at this
    simp [this]
  · have h1 : ((writeBytes buf 0 data).take m).length ≤ n := by
      simp [List.length_take, writeBytes_length]; omega
    have h2 : (data.take m).length ≤ n := by
      simp [List.length_take]; omega
    rw [List.getElem?_eq_none h1, List.getElem?_eq_none h2]

/-! ## `shiftLoop` lemmas -/

theorem shiftLoop_length (fuel : Nat) :
    ∀ (buf : List Nat) (i needle : Nat),
      (shiftLoop buf i needle fuel).length = buf.length := by
  induction fuel with
  | zero => intro buf i needle; rfl
  | succ f ih =>
      intro buf i needle
      simp [shiftLoop, ih]

theorem shiftLoop_getD_lt (fuel : Nat) :
    ∀ (buf : List Nat) (i needle j : Nat), j < i →
      (shiftLoop buf i needle fuel).getD j 0 = buf.getD j 0 := by
  induction fuel with
  | zero => intro buf i needle j _; rfl
  | succ f ih =>
      intro buf i needle j hj
      simp only [shiftLoop]
      rw [ih (buf.set i (buf.getD needle 0)) (i + 1) (needle + 1) j (Nat.lt_succ_of_lt hj)]
      exact getD_set_ne buf i j _ (Nat.ne_of_gt hj)

theorem shiftLoop_getD (fuel : Nat) :
    ∀ (buf : List Nat) (i needle k : Nat), i ≤ needle → i + fuel ≤ buf.length →
      k < fuel →
      (shiftLoop buf i needle fuel).getD (i + k) 0 = buf.getD (needle + k) 0 := by
  induction fuel with
  | zero => intro buf i needle k _ _ hk; exact absurd hk (Nat.not_lt_zero k)
  | succ f ih =>
      intro buf i needle k hin hcap hk
      simp only [shiftLoop]
      cases k with
      | zero =>
          exact (shiftLoop_getD_lt f (buf.set i (buf.getD needle 0)) (i + 1) (needle + 1) i
              (Nat.lt_succ_self i)).trans
            (getD_set_self buf i _ (by omega))
      | succ j =>
          have harr : i + (j + 1) = (i + 1) + j := by omega
          rw [harr]
          rw [ih (buf.set i (buf.getD needle 0)) (i + 1) (needle + 1) j
            (Nat.succ_le_succ hin)
            (by simp only [List.length_set]; omega)
            (Nat.lt_of_succ_lt_succ hk)]
          have harr2 : (needle + 1) + j = needle + (j + 1) := by omega
          rw [harr2]
          exact getD_set_ne buf i (needle + (j + 1)) _ (by omega)

/-! ## `fanout` lemmas -/

theorem fanout_atts (ofd : Int) (message : List Nat) (w : Int → WriteRes)
    (fds : List Int) :
    (fanout ofd message w fds).1
      = (fds.filter (fun f => f ≠ ofd)).map (fun f => (f, message)) := by
  induction fds with
  | nil => rfl
  | cons fd rest ih =>
      simp only [fanout, List.filter_cons]
      by_cases h : fd = ofd
      · simp [h, ih]
      · simp [h, ih]

theorem fanout_bytes (ofd : Int) (message : List Nat) (w : Int → WriteRes)
    (fds : List Int) :
    (fanout ofd message w fds).2
      = ((fds.filter (fun f => f ≠ ofd)).map (fun f => wBytes (w f))).sum := by
  induction fds with
  | nil => rfl
  | cons fd rest ih =>
      simp only [fanout, List.filter_cons]
      by_cases h : fd = ofd
      · simp [h, ih]
      · simp [h, ih]

theorem fanout_countP_zero (ofd fd : Int) (message : List Nat)
    (w : Int → WriteRes) (fds : List Int) (h : fd ∉ fds) :
    (fanout ofd message w fds).1.countP (fun a => a.1 = fd) = 0 := by
  induction fds with
  | nil => rfl
  | cons f rest ih =>
      have hne : f ≠ fd := fun heq => h (heq ▸ List.mem_cons_self f rest)
      have hrest : fd ∉ rest := fun hm => h (List.mem_cons_of_mem f hm)
      simp only [fanout]
      by_cases hf : f = ofd
      · simp only [if_pos hf]; exact ih hrest
      · simp only [if_neg hf, List.countP_cons]
        simp [ih hrest, hne]

theorem fanout_countP_one (ofd fd : Int) (message : List Nat)
    (w : Int → WriteRes) (fds : List Int) (hnd : fds.Nodup)
    (hm : fd ∈ fds) (hne : fd ≠ ofd) :
    (fanout ofd message w fds).1.countP (fun a => a.1 = fd) = 1 := by
  induction fds with
  | nil => exact absurd hm (List.not_mem_nil fd)
  | cons f rest ih =>
      rcases List.nodup_cons.mp hnd with ⟨hfr, hndr⟩
      simp only [fanout]
      rcases List.mem_cons.mp hm with heq | hmr
      · subst heq
        simp only [if_neg hne, List.countP_cons]
        simp [fanout_countP_zero ofd fd message w rest hfr]
      · by_cases hf : f = ofd
        · simp only [if_pos hf]; exact ih hndr hmr
        · simp only [if_neg hf, List.countP_cons]
          have hfd : f ≠ fd := fun heq => hfr (heq ▸ hmr)
          simp [ih hndr hmr, hfd]

/-! ## Registry lemmas -/

theorem remove_absent (fd : Int) (clients : List (Int × ClientState))
    (h : registry_get fd clients = none) : remove_client fd clients = clients := by
  induction clients with
  | nil => rfl
  | cons p rest ih =>
      obtain ⟨f, c⟩ := p
      simp only [registry_get] at h
      by_cases hf : f = fd
      · rw [if_pos hf] at h; exact absurd h (by simp)
      · rw [if_neg hf] at h
        simp only [remove_client] at ih ⊢
        rw [List.filter_cons]
        have hd : (decide ((f, c).1 ≠ fd)) = true := by simp [hf]
        rw [hd]
        rw [if_pos rfl, ih h]

theorem remove_remove (fd : Int) (clients : List (Int × ClientState)) :
    remove_client fd (remove_client fd clients) = remove_client fd clients := by
  simp [remove_client]

theorem registry_get_remove_self (fd : Int) (clients : List (Int × ClientState)) :
    registry_get fd (remove_client fd clients) = none := by
  induction clients with
  | nil => rfl
  | cons p rest ih =>
      obtain ⟨f, c⟩ := p
      simp only [remove_client, List.filter_cons]
      by_cases hf : f = fd
      · simp only [hf]
        simp only [remove_client] at ih
        simpa using ih
      · have : (decide (f ≠ fd)) = true := by simp [hf]
        rw [this]
        simp only [cond_true, registry_get, if_neg hf]
        simpa [remove_client] using ih

theorem registry_get_set_self (fd : Int) (c : ClientState)
    (clients : List (Int × ClientState)) (c0 : ClientState)
    (h : registry_get fd clients = some c0) :
    registry_get fd (registry_set fd c clients) = some c := by
  induction clients with
  | nil => simp [registry_get] at h
  | cons p rest ih =>
      obtain ⟨f, c1⟩ := p
      simp only [registry_get] at h
      simp only [registry_set, List.map_cons]
      by_cases hf : f = fd
      · subst hf
        have h1 : (if ((f, c1) : Int × ClientState).1 = f then (f, c) else (f, c1))
            = (f, c) := if_pos rfl
        rw [h1]
        simp [registry_get]
      · rw [if_neg hf] at h
        have : (if (f, c1).1 = fd then (fd, c) else (f, c1)) = (f, c1) := by
          simp [hf]
        rw [this]
        simp only [registry_get, if_neg hf]
        exact ih h

/-! ## Claim C3: the line-framing scan -/

/-- C3: for every buffer state with `needle = 0` and a read of
`bytes` new bytes with `off + bytes ≤ BUFFER_SIZE`, `check_message` extends
`off` by `bytes`, leaves the buffer contents alone, returns true iff a
newline occurs in the valid region (equivalently iff the resulting
`line_end` is positive), leaves `needle = 0` when the region has no newline,
and otherwise sets `needle` to one past the index of the last newline in
`buf[0 .. off+bytes]`. -/
theorem check_message_spec (c : ClientState) (bytes : Nat)
    (h0 : c.needle = 0) (hcap : c.off + bytes ≤ BUFFER_SIZE) :
    (check_message c bytes).1.off = c.off + bytes ∧
    (check_message c bytes).1.buf = c.buf ∧
    ((check_message c bytes).2 = true ↔ 0 < (check_message c bytes).1.needle) ∧
    ((check_message c bytes).2 = true ↔
      ∃ i, i < c.off + bytes ∧ c.buf.getD i 0 = 10) ∧
    ((∀ i, i < c.off + bytes → c.buf.getD i 0 ≠ 10) →
      (check_message c bytes).1.needle = 0) ∧
    (∀ j, j < c.off + bytes → c.buf.getD j 0 = 10 →
      (∀ i, j < i → i < c.off + bytes → c.buf.getD i 0 ≠ 10) →
      (check_message c bytes).1.needle = j + 1) := by
  have hneedle : (check_message c bytes).1.needle
      = scanBack c.buf (c.off + bytes) := by
    simp only [check_message]
    by_cases h : scanBack c.buf (c.off + bytes) = 0
    · simp [h, h0]
    · simp [h]
  have hflag : (check_message c bytes).2 = true
      ↔ 0 < (check_message c bytes).1.needle := by
    simp only [check_message]
    by_cases h : scanBack c.buf (c.off + bytes) = 0 <;> simp [h]
  have hiff : 0 < scanBack c.buf (c.off + bytes)
      ↔ ∃ i, i < c.off + bytes ∧ c.buf.getD i 0 = 10 := by
    rw [Nat.pos_iff_ne_zero, Ne, scanBack_eq_zero_iff]
    push_neg
    constructor
    · rintro ⟨i, hi, h10⟩; exact ⟨i, hi, h10⟩
    · rintro ⟨i, hi, h10⟩; exact ⟨i, hi, h10⟩
  refine ⟨rfl, rfl, hflag, ?_, ?_, ?_⟩
  · rw [hflag, hneedle]; exact hiff
  · intro hnone
    rw [hneedle]
    exact (scanBack_eq_zero_iff c.buf (c.off + bytes)).mpr hnone
  · intro j hj h10 hlast
    rw [hneedle]
    exact scanBack_last c.buf (c.off + bytes) j hj h10 hlast

/-- Witness for `check_message_spec`, at the buffer holding `"hi\n"`. -/
theorem check_message_spec_witness :
    (check_message (ClientState.mk 0 0 [104, 105, 10]) 3).1.off = 0 + 3 ∧
    (check_message (ClientState.mk 0 0 [104, 105, 10]) 3).1.buf = [104, 105, 10] ∧
    ((check_message (ClientState.mk 0 0 [104, 105, 10]) 3).2 = true ↔
      0 < (check_message (ClientState.mk 0 0 [104, 105, 10]) 3).1.needle) ∧
    ((check_message (ClientState.mk 0 0 [104, 105, 10]) 3).2 = true ↔
      ∃ i, i < 0 + 3 ∧ ([104, 105, 10] : List Nat).getD i 0 = 10) ∧
    ((∀ i, i < 0 + 3 → ([104, 105, 10] : List Nat).getD i 0 ≠ 10) →
      (check_message (ClientState.mk 0 0 [104, 105, 10]) 3).1.needle = 0) ∧
    (∀ j, j < 0 + 3 → ([104, 105, 10] : List Nat).getD j 0 = 10 →
      (∀ i, j < i → i < 0 + 3 → ([104, 105, 10] : List Nat).getD i 0 ≠ 10) →
      (check_message (ClientState.mk 0 0 [104, 105, 10]) 3).1.needle = j + 1) :=
  check_message_spec (ClientState.mk 0 0 [104, 105, 10]) 3 (by decide) (by decide)

/-! ## Claim C4: compaction -/

/-- C4: for every buffer state with `0 < needle ≤ off ≤ BUFFER_SIZE` (and a
buffer of the physical size), the compaction tail of `broadcast_message`
resets `needle` to 0, sets `off` to `off - needle` (which is `off - needle`
when `needle < off` and `0` when `needle = off`), preserves the buffer's
size, and moves the leftover bytes `buf[needle..off]` to the front of the
buffer preserving values and order. -/
theorem compact_spec (c : ClientState) (h1 : 0 < c.needle) (h2 : c.needle ≤ c.off)
    (h3 : c.off ≤ BUFFER_SIZE) (hlen : c.buf.length = BUFFER_SIZE) :
    (broadcast_compact c).needle = 0 ∧
    (broadcast_compact c).off = c.off - c.needle ∧
    (broadcast_compact c).buf.length = c.buf.length ∧
    (∀ k, k < c.off - c.needle →
      (broadcast_compact c).buf.getD k 0 = c.buf.getD (c.needle + k) 0) := by
  by_cases h : c.needle < c.off
  · refine ⟨?_, ?_, ?_, ?_⟩
    · simp [broadcast_compact, if_pos h]
    · simp [broadcast_compact, if_pos h]
    · simp only [broadcast_compact, if_pos h]
      exact shiftLoop_length _ _ _ _
    · intro k hk
      simp only [broadcast_compact, if_pos h]
      have := shiftLoop_getD (c.off - c.needle) c.buf 0 c.needle k
        (Nat.zero_le _) (by omega) hk
      simpa using this
  · refine ⟨?_, ?_, ?_, fun k hk => absurd hk (by omega)⟩
    · simp [broadcast_compact, if_neg h]
    · simp only [broadcast_compact, if_neg h]
      omega
    · simp [broadcast_compact, if_neg h]

/-- Witness for `compact_spec`: `"a\nb"` read in one go, `needle = 2`. -/
theorem compact_spec_witness :
    (broadcast_compact (ClientState.mk 3 2 ([97, 10, 98] ++ List.replicate 253 0))).needle = 0 ∧
    (broadcast_compact (ClientState.mk 3 2 ([97, 10, 98] ++ List.replicate 253 0))).off = 3 - 2 ∧
    (broadcast_compact (ClientState.mk 3 2 ([97, 10, 98] ++ List.replicate 253 0))).buf.length
      = ([97, 10, 98] ++ List.replicate 253 0).length ∧
    (∀ k, k < 3 - 2 →
      (broadcast_compact (ClientState.mk 3 2 ([97, 10, 98] ++ List.replicate 253 0))).buf.getD k 0
        = ([97, 10, 98] ++ List.replicate 253 0).getD (2 + k) 0) :=
  compact_spec (ClientState.mk 3 2 ([97, 10, 98] ++ List.replicate 253 0))
    (by decide) (by decide) (by decide) (by simp [BUFFER_SIZE])

/-! ## Claim C5: fan-out targets -/

/-- C5: for every registry (fds with unique keys) and sender, the broadcast
attempts exactly one write of `buf[0..needle]` to each non-sender connection
in registry order, never writes to the sender, and the set of attempts does
not depend on any peer's write outcome (a failing peer prevents nothing). -/
theorem broadcast_targets_spec (ofd : Int) (orator : ClientState)
    (fds : List Int) (w : Int → WriteRes) (hnd : fds.Nodup) :
    (broadcast_message ofd orator fds w).2.1
      = (fds.filter (fun f => f ≠ ofd)).map
          (fun f => (f, orator.buf.take orator.needle)) ∧
    (∀ a ∈ (broadcast_message ofd orator fds w).2.1, a.1 ≠ ofd) ∧
    (∀ fd ∈ fds, fd ≠ ofd →
      ((broadcast_message ofd orator fds w).2.1.countP (fun a => a.1 = fd)) = 1) ∧
    (∀ w' : Int → WriteRes,
      (broadcast_message ofd orator fds w').2.1
        = (broadcast_message ofd orator fds w).2.1) := by
  refine ⟨fanout_atts ofd _ w fds, ?_, ?_, ?_⟩
  · intro a ha
    rw [show (broadcast_message ofd orator fds w).2.1
        = (fanout ofd (orator.buf.take orator.needle) w fds).1 from rfl,
      fanout_atts] at ha
    rcases List.mem_map.mp ha with ⟨f, hf, rfl⟩
    have hfo : f ≠ ofd := by simpa using List.of_mem_filter hf
    simpa using hfo
  · intro fd hm hne
    exact fanout_countP_one ofd fd _ w fds hnd hm hne
  · intro w'
    rw [show (broadcast_message ofd orator fds w).2.1
        = (fanout ofd (orator.buf.take orator.needle) w fds).1 from rfl,
      show (broadcast_message ofd orator fds w').2.1
        = (fanout ofd (orator.buf.take orator.needle) w' fds).1 from rfl,
      fanout_atts, fanout_atts]

/-- Witness for `broadcast_targets_spec`: sender 1, peers 2 and 3. -/
theorem broadcast_targets_spec_witness :
    (broadcast_message 1 (ClientState.mk 3 3 [104, 105, 10]) [1, 2, 3]
        (fun _ => WriteRes.ok 3)).2.1
      = (([1, 2, 3] : List Int).filter (fun f => f ≠ 1)).map
          (fun f => (f, ([104, 105, 10] : List Nat).take 3)) ∧
    (∀ a ∈ (broadcast_message 1 (ClientState.mk 3 3 [104, 105, 10]) [1, 2, 3]
        (fun _ => WriteRes.ok 3)).2.1, a.1 ≠ 1) ∧
    (∀ fd ∈ ([1, 2, 3] : List Int), fd ≠ 1 →
      ((broadcast_message 1 (ClientState.mk 3 3 [104, 105, 10]) [1, 2, 3]
          (fun _ => WriteRes.ok 3)).2.1.countP (fun a => a.1 = fd)) = 1) ∧
    (∀ w' : Int → WriteRes,
      (broadcast_message 1 (ClientState.mk 3 3 [104, 105, 10]) [1, 2, 3] w').2.1
        = (broadcast_message 1 (ClientState.mk 3 3 [104, 105, 10]) [1, 2, 3]
            (fun _ => WriteRes.ok 3)).2.1) :=
  broadcast_targets_spec 1 (ClientState.mk 3 3 [104, 105, 10]) [1, 2, 3]
    (fun _ => WriteRes.ok 3) (by decide)

/-! ## Claim C6: the byte total feeds the telemetry counter only -/

/-- The telemetry counter: `handle_client` adds exactly the broadcast's byte
total to `TOTAL_BYTES_SENT`, and no other output depends on the counter. -/
theorem handle_client_counter_add (cfd : Int) (clients : List (Int × ClientState))
    (r : ReadOutcome) (w : Int → WriteRes) (counter : Nat) :
    (handle_client cfd clients r w counter).counter
        = counter + (handle_client cfd clients r w 0).counter ∧
    (handle_client cfd clients r w counter).clients
        = (handle_client cfd clients r w 0).clients ∧
    (handle_client cfd clients r w counter).atts
        = (handle_client cfd clients r w 0).atts ∧
    (handle_client cfd clients r w counter).res
        = (handle_client cfd clients r w 0).res := by
  cases hreg : registry_get cfd clients with
  | none => simp [handle_client, hreg]
  | some c =>
    cases r with
    | err k => cases k <;> simp [handle_client, hreg]
    | ok data =>
      by_cases hlen : data.length = 0
      · simp [handle_client, hreg, hlen]
      · by_cases hfl :
          (check_message { c with buf := writeBytes c.buf c.off data } data.length).2
        · simp [handle_client, hreg, hlen, hfl]
        · simp [handle_client, hreg, hlen, hfl]

/-- C6: the broadcast returns the sum over all non-sender peers of the bytes
their transport accepted (a failed write contributes 0), and `handle_client`
uses this return value only to advance the telemetry counter: the counter
grows by exactly that amount and no other output reads the counter. -/
theorem broadcast_bytes_spec (ofd : Int) (orator : ClientState) (fds : List Int)
    (w : Int → WriteRes) (cfd : Int) (clients : List (Int × ClientState))
    (r : ReadOutcome) (counter : Nat) :
    (broadcast_message ofd orator fds w).2.2
      = ((fds.filter (fun f => f ≠ ofd)).map (fun f => wBytes (w f))).sum ∧
    (handle_client cfd clients r w counter).counter
      = counter + (handle_client cfd clients r w 0).counter ∧
    (handle_client cfd clients r w counter).clients
      = (handle_client cfd clients r w 0).clients ∧
    (handle_client cfd clients r w counter).atts
      = (handle_client cfd clients r w 0).atts ∧
    (handle_client cfd clients r w counter).res
      = (handle_client cfd clients r w 0).res := by
  obtain ⟨h1, h2, h3, h4⟩ := handle_client_counter_add cfd clients r w counter
  exact ⟨fanout_bytes ofd _ w fds, h1, h2, h3, h4⟩

/-! ## Claim C8: events for absent connections; removal idempotence -/

/-- C8: an event for an id that is not the listening endpoint and is absent
from the registry is handled as a pure no-op (registry, broadcasts and
counter unchanged, no crash); removing an absent id is a no-op; and removing
the same id twice equals removing it once. -/
theorem handle_event_absent_noop (evfd listenFd : Int) (acc : AcceptOutcome)
    (r : ReadOutcome) (w : Int → WriteRes) (clients : List (Int × ClientState))
    (counter : Nat) (hne : evfd ≠ listenFd)
    (hget : registry_get evfd clients = none) :
    handle_event evfd listenFd acc r w clients counter
      = ⟨clients, [], counter⟩ ∧
    remove_client evfd clients = clients ∧
    (∀ (cfd : Int) (cs : List (Int × ClientState)),
      remove_client cfd (remove_client cfd cs) = remove_client cfd cs) := by
  refine ⟨?_, remove_absent evfd clients hget, fun cfd cs => remove_remove cfd cs⟩
  simp [handle_event, hne, handle_client, hget]

/-- Witness for `handle_event_absent_noop`: event for fd 7, registry holds
only fd 5. -/
theorem handle_event_absent_noop_witness :
    handle_event 7 3 AcceptOutcome.err (ReadOutcome.err ErrKind.other)
        (fun _ => WriteRes.err) [(5, ClientState.with_stream)] 0
      = ⟨[(5, ClientState.with_stream)], [], 0⟩ ∧
    remove_client 7 [(5, ClientState.with_stream)] = [(5, ClientState.with_stream)] ∧
    (∀ (cfd : Int) (cs : List (Int × ClientState)),
      remove_client cfd (remove_client cfd cs) = remove_client cfd cs) :=
  handle_event_absent_noop 7 3 AcceptOutcome.err (ReadOutcome.err ErrKind.other)
    (fun _ => WriteRes.err) [(5, ClientState.with_stream)] 0
    (by decide) (by simp [registry_get])

/-! ## Claim C10: full buffer with no newline kills the connection -/

/-- C10: with `off = BUFFER_SIZE` and `needle = 0`, the next readiness event
for the connection reads into the zero remaining capacity, so a successful
read necessarily delivers zero bytes; this is classified as EOF
(`ConnectionAborted`) and the connection is removed from the registry. -/
theorem full_buffer_next_event_removes (evfd listenFd : Int) (acc : AcceptOutcome)
    (w : Int → WriteRes) (clients : List (Int × ClientState)) (counter : Nat)
    (c : ClientState) (data : List Nat)
    (hne : evfd ≠ listenFd) (hget : registry_get evfd clients = some c)
    (hfull : c.off = BUFFER_SIZE) (hn : c.needle = 0)
    (hdata : data.length ≤ BUFFER_SIZE - c.off) :
    data = [] ∧
    (handle_event evfd listenFd acc (.ok data) w clients counter).clients
      = remove_client evfd clients ∧
    registry_get evfd
      (handle_event evfd listenFd acc (.ok data) w clients counter).clients
      = none := by
  have hd : data = [] := by
    rw [hfull, Nat.sub_self] at hdata
    exact List.length_eq_zero.mp (Nat.le_zero.mp hdata)
  subst hd
  have h2 : (handle_event evfd listenFd acc (.ok []) w clients counter).clients
      = remove_client evfd clients := by
    simp [handle_event, hne, handle_client, hget]
  exact ⟨rfl, h2, by rw [h2]; exact registry_get_remove_self evfd clients⟩

/-- Witness for `full_buffer_next_event_removes`: fd 5's buffer is full of
`'a'` bytes, the event delivers the forced zero-byte read. -/
theorem full_buffer_next_event_removes_witness :
    ([] : List Nat) = [] ∧
    (handle_event 5 3 AcceptOutcome.err (.ok []) (fun _ => WriteRes.err)
        [(5, ClientState.mk BUFFER_SIZE 0 (List.replicate BUFFER_SIZE 97))] 0).clients
      = remove_client 5 [(5, ClientState.mk BUFFER_SIZE 0 (List.replicate BUFFER_SIZE 97))] ∧
    registry_get 5
      (handle_event 5 3 AcceptOutcome.err (.ok []) (fun _ => WriteRes.err)
        [(5, ClientState.mk BUFFER_SIZE 0 (List.replicate BUFFER_SIZE 97))] 0).clients
      = none :=
  full_buffer_next_event_removes 5 3 AcceptOutcome.err (fun _ => WriteRes.err)
    [(5, ClientState.mk BUFFER_SIZE 0 (List.replicate BUFFER_SIZE 97))] 0
    (ClientState.mk BUFFER_SIZE 0 (List.replicate BUFFER_SIZE 97)) []
    (by decide) (by simp [registry_get]) rfl rfl (by decide)

/-- `check_message` written out as an explicit pair, for rewriting. -/
theorem check_message_eq (c : ClientState) (bytes : Nat) :
    check_message c bytes
      = (ClientState.mk (c.off + bytes)
          (if scanBack c.buf (c.off + bytes) = 0 then c.needle
            else scanBack c.buf (c.off + bytes)) c.buf,
         decide (0 < if scanBack c.buf (c.off + bytes) = 0 then c.needle
            else scanBack c.buf (c.off + bytes))) := rfl

/-! ## Claim C9: the connection-state invariant -/

/-- C9: every connection state reachable through reads (bounded by the
remaining capacity), framing scans and dispatch compactions satisfies
`needle ≤ off ≤ BUFFER_SIZE`, and whenever `needle > 0` the byte just before
`needle` is a newline — `buf[0..needle]` ends a complete line, so at least
one complete line is pending dispatch. -/
theorem client_invariant (c : ClientState) (h : ClientReach c) :
    c.needle ≤ c.off ∧ c.off ≤ BUFFER_SIZE ∧
    (0 < c.needle → c.buf.getD (c.needle - 1) 0 = 10) := by
  induction h with
  | init => exact ⟨Nat.le_refl 0, Nat.zero_le _, fun h0 => absurd h0 (by decide)⟩
  | scan c data hr hcap ih =>
      obtain ⟨ih1, ih2, ih3⟩ := ih
      rw [check_message_eq]
      dsimp only
      by_cases hs : scanBack (writeBytes c.buf c.off data) (c.off + data.length) = 0
      · rw [if_pos hs]
        refine ⟨Nat.le_trans ih1 (Nat.le_add_right _ _), hcap, ?_⟩
        intro h0
        rw [writeBytes_getD_lt data c.buf c.off (c.needle - 1) (by omega)]
        exact ih3 h0
      · rw [if_neg hs]
        rcases Nat.exists_eq_succ_of_ne_zero hs with ⟨m, hm⟩
        obtain ⟨h10, hlt⟩ := scanBack_newline _ _ m hm
        rw [hm]
        exact ⟨hlt, hcap, fun _ => by simpa using h10⟩
  | dispatch c hr ih =>
      obtain ⟨ih1, ih2, ih3⟩ := ih
      have hne : (broadcast_compact c).needle = 0 := by
        by_cases h : c.needle < c.off <;> simp [broadcast_compact, h]
      have hoff : (broadcast_compact c).off ≤ BUFFER_SIZE := by
        by_cases h : c.needle < c.off
        · simp only [broadcast_compact, if_pos h]
          omega
        · simp only [broadcast_compact, if_neg h]
          exact Nat.zero_le _
      refine ⟨by rw [hne]; exact Nat.zero_le _, hoff, ?_⟩
      intro h0
      rw [hne] at h0
      exact absurd h0 (by omega)

/-- Witness for `client_invariant`: the state after reading `"h\n"` into a
fresh connection. -/
theorem client_invariant_witness :
    (check_message { ClientState.with_stream with
        buf := writeBytes ClientState.with_stream.buf ClientState.with_stream.off
          [104, 10] } 2).1.needle
      ≤ (check_message { ClientState.with_stream with
        buf := writeBytes ClientState.with_stream.buf ClientState.with_stream.off
          [104, 10] } 2).1.off ∧
    (check_message { ClientState.with_stream with
        buf := writeBytes ClientState.with_stream.buf ClientState.with_stream.off
          [104, 10] } 2).1.off ≤ BUFFER_SIZE ∧
    (0 < (check_message { ClientState.with_stream with
        buf := writeBytes ClientState.with_stream.buf ClientState.with_stream.off
          [104, 10] } 2).1.needle →
      (check_message { ClientState.with_stream with
        buf := writeBytes ClientState.with_stream.buf ClientState.with_stream.off
          [104, 10] } 2).1.buf.getD
        ((check_message { ClientState.with_stream with
          buf := writeBytes ClientState.with_stream.buf ClientState.with_stream.off
            [104, 10] } 2).1.needle - 1) 0 = 10) :=
  client_invariant _
    (ClientReach.scan ClientState.with_stream [104, 10] ClientReach.init (by decide))

/-! ## Claim C7: per-event client handling -/

/-- C7 counterexample: a read error of kind `InvalidInput` does *not* remove
the connection, because `handle_event` uses that kind as the absent-client
marker — so "any other read error removes the connection" fails as stated. -/
theorem invalid_input_error_not_removed :
    (handle_event 5 3 AcceptOutcome.err (ReadOutcome.err ErrKind.invalidInput)
        (fun _ => WriteRes.err) [(5, ClientState.with_stream)] 0).clients
      = [(5, ClientState.with_stream)] ∧
    remove_client 5 [(5, ClientState.with_stream)] = [] ∧
    ([(5, ClientState.with_stream)] : List (Int × ClientState)) ≠ [] := by
  refine ⟨rfl, rfl, ?_⟩
  intro h
  exact absurd (congrArg List.length h) (by decide)

/-- C7 (amended): for an event on a non-listening fd whose connection is
present, a zero-byte read removes the connection; a would-block read changes
nothing; any other read error *except one of kind `InvalidInput`* removes the
connection (an `InvalidInput` read error is conflated with the absent-client
marker and changes nothing); a positive read runs `check_message` on the new
bytes and, exactly when it signals a complete line, broadcasts
`buf[0..needle]` to every other registered fd and compacts, otherwise only
the framing state advances. -/
theorem handle_event_client_dispatch (evfd listenFd : Int) (acc : AcceptOutcome)
    (clients : List (Int × ClientState)) (c : ClientState) (w : Int → WriteRes)
    (counter : Nat) (hne : evfd ≠ listenFd)
    (hget : registry_get evfd clients = some c) :
    handle_event evfd listenFd acc (.ok []) w clients counter
      = ⟨remove_client evfd clients, [], counter⟩ ∧
    handle_event evfd listenFd acc (.err .wouldBlock) w clients counter
      = ⟨clients, [], counter⟩ ∧
    (∀ k, k ≠ ErrKind.wouldBlock → k ≠ ErrKind.invalidInput →
      handle_event evfd listenFd acc (.err k) w clients counter
        = ⟨remove_client evfd clients, [], counter⟩) ∧
    handle_event evfd listenFd acc (.err .invalidInput) w clients counter
      = ⟨clients, [], counter⟩ ∧
    (∀ (data : List Nat) (pr : ClientState × Bool), data.length ≠ 0 →
      pr = check_message { c with buf := writeBytes c.buf c.off data } data.length →
      (pr.2 = true →
        handle_event evfd listenFd acc (.ok data) w clients counter
          = ⟨registry_set evfd (broadcast_compact pr.1) clients,
              (fanout evfd (pr.1.buf.take pr.1.needle) w (clients.map Prod.fst)).1,
              counter
                + (fanout evfd (pr.1.buf.take pr.1.needle) w (clients.map Prod.fst)).2⟩) ∧
      (pr.2 = false →
        handle_event evfd listenFd acc (.ok data) w clients counter
          = ⟨registry_set evfd pr.1 clients, [], counter⟩)) := by
  refine ⟨?_, ?_, ?_, ?_, ?_⟩
  · simp [handle_event, hne, handle_client, hget]
  · simp [handle_event, hne, handle_client, hget]
  · intro k hk1 hk2
    cases k with
    | wouldBlock => exact absurd rfl hk1
    | invalidInput => exact absurd rfl hk2
    | connAborted => simp [handle_event, hne, handle_client, hget]
    | other => simp [handle_event, hne, handle_client, hget]
  · simp [handle_event, hne, handle_client, hget]
  · intro data pr hlen hpr
    subst hpr
    constructor
    · intro hflag
      simp [handle_event, hne, handle_client, hget, hlen, hflag, broadcast_message]
    · intro hflag
      simp [handle_event, hne, handle_client, hget, hlen, hflag]

/-- Witness for `handle_event_client_dispatch`: fd 5 with a fresh state,
listener fd 3. -/
theorem handle_event_client_dispatch_witness :
    handle_event 5 3 AcceptOutcome.err (.ok []) (fun _ => WriteRes.err)
        [(5, ClientState.with_stream)] 0
      = ⟨remove_client 5 [(5, ClientState.with_stream)], [], 0⟩ ∧
    handle_event 5 3 AcceptOutcome.err (.err .wouldBlock) (fun _ => WriteRes.err)
        [(5, ClientState.with_stream)] 0
      = ⟨[(5, ClientState.with_stream)], [], 0⟩ ∧
    (∀ k, k ≠ ErrKind.wouldBlock → k ≠ ErrKind.invalidInput →
      handle_event 5 3 AcceptOutcome.err (.err k) (fun _ => WriteRes.err)
          [(5, ClientState.with_stream)] 0
        = ⟨remove_client 5 [(5, ClientState.with_stream)], [], 0⟩) ∧
    handle_event 5 3 AcceptOutcome.err (.err .invalidInput) (fun _ => WriteRes.err)
        [(5, ClientState.with_stream)] 0
      = ⟨[(5, ClientState.with_stream)], [], 0⟩ ∧
    (∀ (data : List Nat) (pr : ClientState × Bool), data.length ≠ 0 →
      pr = check_message { ClientState.with_stream with
          buf := writeBytes ClientState.with_stream.buf ClientState.with_stream.off
            data } data.length →
      (pr.2 = true →
        handle_event 5 3 AcceptOutcome.err (.ok data) (fun _ => WriteRes.err)
            [(5, ClientState.with_stream)] 0
          = ⟨registry_set 5 (broadcast_compact pr.1) [(5, ClientState.with_stream)],
              (fanout 5 (pr.1.buf.take pr.1.needle) (fun _ => WriteRes.err)
                (([(5, ClientState.with_stream)] : List (Int × ClientState)).map
                  Prod.fst)).1,
              0 + (fanout 5 (pr.1.buf.take pr.1.needle) (fun _ => WriteRes.err)
                (([(5, ClientState.with_stream)] : List (Int × ClientState)).map
                  Prod.fst)).2⟩) ∧
      (pr.2 = false →
        handle_event 5 3 AcceptOutcome.err (.ok data) (fun _ => WriteRes.err)
            [(5, ClientState.with_stream)] 0
          = ⟨registry_set 5 pr.1 [(5, ClientState.with_stream)], [], 0⟩)) :=
  handle_event_client_dispatch 5 3 AcceptOutcome.err [(5, ClientState.with_stream)]
    ClientState.with_stream (fun _ => WriteRes.err) 0 (by decide) rfl

/-! ## Per-peer message sequences -/

theorem msgsTo_fanout_not_mem (ofd fd : Int) (msg : List Nat) (w : Int → WriteRes)
    (fds : List Int) (h : fd ∉ fds) :
    msgsTo fd (fanout ofd msg w fds).1 = [] := by
  induction fds with
  | nil => rfl
  | cons f rest ih =>
      have hne : f ≠ fd := fun heq => h (heq ▸ List.mem_cons_self f rest)
      have hrest : fd ∉ rest := fun hm => h (List.mem_cons_of_mem f hm)
      simp only [fanout]
      by_cases hf : f = ofd
      · rw [if_pos hf]; exact ih hrest
      · rw [if_neg hf]
        simp only [msgsTo, List.filter_cons]
        have hd : (decide (((f, msg) : Int × List Nat).1 = fd)) = false := by
          simp [hne]
        rw [hd, if_neg (by simp)]
        simpa [msgsTo] using ih hrest

theorem msgsTo_fanout_mem (ofd fd : Int) (msg : List Nat) (w : Int → WriteRes)
    (fds : List Int) (hnd : fds.Nodup) (hm : fd ∈ fds) (hne : fd ≠ ofd) :
    msgsTo fd (fanout ofd msg w fds).1 = [msg] := by
  induction fds with
  | nil => exact absurd hm (List.not_mem_nil fd)
  | cons f rest ih =>
      rcases List.nodup_cons.mp hnd with ⟨hfr, hndr⟩
      simp only [fanout]
      rcases List.mem_cons.mp hm with heq | hmr
      · subst heq
        rw [if_neg hne]
        simp only [msgsTo, List.filter_cons]
        rw [if_pos (by simp)]
        simpa [msgsTo] using msgsTo_fanout_not_mem ofd fd msg w rest hfr
      · by_cases hf : f = ofd
        · rw [if_pos hf]; exact ih hndr hmr
        · rw [if_neg hf]
          have hfd : f ≠ fd := fun heq => hfr (heq ▸ hmr)
          simp only [msgsTo, List.filter_cons]
          have hd : (decide (((f, msg) : Int × List Nat).1 = fd)) = false := by
            simp [hfd]
          rw [hd, if_neg (by simp)]
          simpa [msgsTo] using ih hndr hmr

/-- `handle_client` on a positive read, unfolded past the lookup and the
EOF test. -/
theorem handle_client_ok (cfd : Int) (clients : List (Int × ClientState))
    (c : ClientState) (data : List Nat) (w : Int → WriteRes) (counter : Nat)
    (hget : registry_get cfd clients = some c) (hlen : data.length ≠ 0) :
    handle_client cfd clients (.ok data) w counter
      = if (check_message { c with buf := writeBytes c.buf c.off data } data.length).2 then
          ⟨registry_set cfd
              (broadcast_message cfd
                (check_message { c with buf := writeBytes c.buf c.off data }
                  data.length).1 (clients.map Prod.fst) w).1 clients,
            (broadcast_message cfd
              (check_message { c with buf := writeBytes c.buf c.off data }
                data.length).1 (clients.map Prod.fst) w).2.1,
            counter + (broadcast_message cfd
              (check_message { c with buf := writeBytes c.buf c.off data }
                data.length).1 (clients.map Prod.fst) w).2.2,
            .ok ()⟩
        else
          ⟨registry_set cfd
              (check_message { c with buf := writeBytes c.buf c.off data }
                data.length).1 clients, [], counter, .ok ()⟩ := by
  simp [handle_client, hget, hlen]

/-! ## Claim C1: what one read with several newlines broadcasts -/

/-- C1 counterexample: client 1 (fresh state) delivers `"x\ny\n"` in one
read while peers 2 and 3 are connected.  Peer 2 receives the *single*
message `"x\ny\n"` — not the two separate line broadcasts `"x\n"`, `"y\n"`
the claim describes. -/
theorem single_read_two_newlines_one_broadcast :
    msgsTo 2 (handle_client 1
        [(1, ClientState.with_stream), (2, ClientState.with_stream),
         (3, ClientState.with_stream)]
        (.ok [120, 10, 121, 10]) (fun _ => WriteRes.ok 4) 0).atts
      = [[120, 10, 121, 10]] ∧
    ([[120, 10, 121, 10]] : List (List Nat)) ≠ [[120, 10], [121, 10]] := by
  constructor
  · decide
  · decide

/-- C1 (amended): when a single read into a fresh (or just-compacted)
connection delivers bytes whose last newline sits at index `j`, the server
performs exactly ONE broadcast per peer, whose message is all bytes
`data[0..j+1]` — all complete lines of the read are carried in a single
broadcast message, in order, rather than one broadcast per line. -/
theorem read_broadcasts_bytes_through_last_newline (cfd : Int)
    (clients : List (Int × ClientState)) (w : Int → WriteRes) (counter : Nat)
    (data : List Nat) (j : Nat)
    (hget : registry_get cfd clients = some ClientState.with_stream)
    (hlen : data.length ≤ BUFFER_SIZE)
    (hj : j < data.length) (h10 : data.getD j 0 = 10)
    (hlast : ∀ i, j < i → i < data.length → data.getD i 0 ≠ 10) :
    (handle_client cfd clients (.ok data) w counter).atts
      = ((clients.map Prod.fst).filter (fun f => f ≠ cfd)).map
          (fun f => (f, data.take (j + 1))) ∧
    (∀ fd, (clients.map Prod.fst).Nodup → fd ∈ clients.map Prod.fst → fd ≠ cfd →
      msgsTo fd (handle_client cfd clients (.ok data) w counter).atts
        = [data.take (j + 1)]) := by
  have hpt : ∀ i, i < data.length →
      (writeBytes (List.replicate BUFFER_SIZE 0) 0 data).getD i 0 = data.getD i 0 := by
    intro i hi
    have h := writeBytes_getD data (List.replicate BUFFER_SIZE 0) 0 i
      (by simpa using hlen) hi
    simpa using h
  have hscan : scanBack (writeBytes (List.replicate BUFFER_SIZE 0) 0 data)
      (0 + data.length) = j + 1 := by
    apply scanBack_last
    · omega
    · rw [hpt j hj]; exact h10
    · intro i h1 h2
      rw [hpt i (by omega)]
      exact hlast i h1 (by omega)
  have hcm : check_message
      (ClientState.mk 0 0 (writeBytes (List.replicate BUFFER_SIZE 0) 0 data))
      data.length
      = (ClientState.mk (0 + data.length) (j + 1)
          (writeBytes (List.replicate BUFFER_SIZE 0) 0 data), true) := by
    rw [check_message_eq]
    dsimp only
    rw [hscan]
    simp
  have htake : (writeBytes (List.replicate BUFFER_SIZE 0) 0 data).take (j + 1)
      = data.take (j + 1) :=
    writeBytes_take data _ (j + 1) (by omega) (by simpa using hlen)
  have hatts : (handle_client cfd clients (.ok data) w counter).atts
      = (fanout cfd (data.take (j + 1)) w (clients.map Prod.fst)).1 := by
    rw [handle_client_ok cfd clients
      (ClientState.mk 0 0 (List.replicate BUFFER_SIZE 0)) data w counter hget
      (by omega)]
    dsimp only
    rw [hcm]
    dsimp only
    rw [if_pos rfl]
    dsimp only [broadcast_message]
    rw [htake]
  refine ⟨?_, ?_⟩
  · rw [hatts, fanout_atts]
  · intro fd hnd hm hne2
    rw [hatts]
    exact msgsTo_fanout_mem cfd fd (data.take (j + 1)) w (clients.map Prod.fst)
      hnd hm hne2

/-- Witness for `read_broadcasts_bytes_through_last_newline`:
client 1 reads `"x\ny\n"` with peer 2 connected; the last newline is at
index 3. -/
theorem read_broadcasts_bytes_through_last_newline_witness :
    (handle_client 1
        [(1, ClientState.with_stream), (2, ClientState.with_stream)]
        (.ok [120, 10, 121, 10]) (fun _ => WriteRes.ok 4) 0).atts
      = ((([(1, ClientState.with_stream), (2, ClientState.with_stream)]
            : List (Int × ClientState)).map Prod.fst).filter (fun f => f ≠ 1)).map
          (fun f => (f, ([120, 10, 121, 10] : List Nat).take (3 + 1))) ∧
    (∀ fd, (([(1, ClientState.with_stream), (2, ClientState.with_stream)]
          : List (Int × ClientState)).map Prod.fst).Nodup →
      fd ∈ ([(1, ClientState.with_stream), (2, ClientState.with_stream)]
          : List (Int × ClientState)).map Prod.fst → fd ≠ 1 →
      msgsTo fd (handle_client 1
          [(1, ClientState.with_stream), (2, ClientState.with_stream)]
          (.ok [120, 10, 121, 10]) (fun _ => WriteRes.ok 4) 0).atts
        = [([120, 10, 121, 10] : List Nat).take (3 + 1)]) :=
  read_broadcasts_bytes_through_last_newline 1
    [(1, ClientState.with_stream), (2, ClientState.with_stream)]
    (fun _ => WriteRes.ok 4) 0 [120, 10, 121, 10] 3 rfl (by decide) (by decide)
    (by decide) (by intro i h1 h2; simp at h2; omega)

/-! ## Claim C2: a full buffer with no newline -/

/-- C2 counterexample: after fd 5 reads `BUFFER_SIZE` newline-less bytes in
one go, its `off` is still `BUFFER_SIZE` — the buffer does *not* reset to
empty as the claim states; the connection is only torn down by the next
readiness event. -/
theorem full_buffer_not_reset :
    (registry_get 5 (handle_client 5 [(5, ClientState.with_stream)]
        (.ok (List.replicate 256 97)) (fun _ => WriteRes.err) 0).clients).map
      ClientState.off = some 256 ∧ (256 : Nat) ≠ 0 := by
  refine ⟨?_, by decide⟩
  decide

/-- C2 (amended): a read of `BUFFER_SIZE` bytes containing no newline into a
fresh connection produces no broadcast and raises no error (the handler
returns `Ok` and the counter is untouched), but the buffer does NOT reset to
empty: the connection is left with `off = BUFFER_SIZE` and `needle = 0`, and
every later event for it (whose read is bounded by the now-zero remaining
capacity) produces no broadcast either — the oversized data is never
broadcast, and the connection is torn down rather than recycled. -/
theorem full_read_without_newline_no_broadcast (cfd : Int)
    (clients : List (Int × ClientState)) (w : Int → WriteRes) (counter : Nat)
    (data : List Nat)
    (hget : registry_get cfd clients = some ClientState.with_stream)
    (hlen : data.length = BUFFER_SIZE)
    (hnl : ∀ i, i < data.length → data.getD i 0 ≠ 10) :
    (handle_client cfd clients (.ok data) w counter).atts = [] ∧
    (handle_client cfd clients (.ok data) w counter).res = .ok () ∧
    (handle_client cfd clients (.ok data) w counter).counter = counter ∧
    (handle_client cfd clients (.ok data) w counter).clients
      = registry_set cfd
          (ClientState.mk BUFFER_SIZE 0
            (writeBytes (List.replicate BUFFER_SIZE 0) 0 data)) clients ∧
    (∀ (r' : ReadOutcome) (w' : Int → WriteRes) (counter' : Nat),
      (∀ d, r' = ReadOutcome.ok d → d.length = 0) →
      (handle_client cfd (handle_client cfd clients (.ok data) w counter).clients
          r' w' counter').atts = []) := by
  have hpt : ∀ i, i < data.length →
      (writeBytes (List.replicate BUFFER_SIZE 0) 0 data).getD i 0 = data.getD i 0 := by
    intro i hi
    have h := writeBytes_getD data (List.replicate BUFFER_SIZE 0) 0 i
      (by simp; omega) hi
    simpa using h
  have hscan : scanBack (writeBytes (List.replicate BUFFER_SIZE 0) 0 data)
      (0 + data.length) = 0 := by
    rw [scanBack_eq_zero_iff]
    intro i hi
    rw [hpt i (by omega)]
    exact hnl i (by omega)
  have hcm : check_message
      (ClientState.mk 0 0 (writeBytes (List.replicate BUFFER_SIZE 0) 0 data))
      data.length
      = (ClientState.mk (0 + data.length) 0
          (writeBytes (List.replicate BUFFER_SIZE 0) 0 data), false) := by
    rw [check_message_eq]
    dsimp only
    rw [hscan]
    simp
  have hlen0 : data.length ≠ 0 := by rw [hlen]; decide
  have hout : handle_client cfd clients (.ok data) w counter
      = ⟨registry_set cfd
          (ClientState.mk BUFFER_SIZE 0
            (writeBytes (List.replicate BUFFER_SIZE 0) 0 data)) clients,
          [], counter, .ok ()⟩ := by
    rw [handle_client_ok cfd clients
      (ClientState.mk 0 0 (List.replicate BUFFER_SIZE 0)) data w counter hget hlen0]
    dsimp only
    rw [hcm]
    dsimp only
    rw [if_neg (by simp)]
    have harr : 0 + data.length = BUFFER_SIZE := by omega
    rw [harr]
  refine ⟨by rw [hout], by rw [hout], by rw [hout], by rw [hout], ?_⟩
  intro r' w' counter' hr'
  rw [hout]
  have hget2 : registry_get cfd
      (registry_set cfd
        (ClientState.mk BUFFER_SIZE 0
          (writeBytes (List.replicate BUFFER_SIZE 0) 0 data)) clients)
      = some (ClientState.mk BUFFER_SIZE 0
          (writeBytes (List.replicate BUFFER_SIZE 0) 0 data)) :=
    registry_get_set_self cfd _ clients _ hget
  cases r' with
  | ok d =>
      have hd0 : d.length = 0 := hr' d rfl
      simp [handle_client, hget2, hd0]
  | err k => cases k <;> simp [handle_client, hget2]

/-- Witness for `full_read_without_newline_no_broadcast`: fd 5 reads 256
`'a'` bytes; a would-block read follows. -/
theorem full_read_without_newline_no_broadcast_witness :
    (handle_client 5 [(5, ClientState.with_stream)]
        (.ok (List.replicate 256 97)) (fun _ => WriteRes.err) 0).atts = [] ∧
    (handle_client 5 [(5, ClientState.with_stream)]
        (.ok (List.replicate 256 97)) (fun _ => WriteRes.err) 0).res = .ok () ∧
    (handle_client 5 [(5, ClientState.with_stream)]
        (.ok (List.replicate 256 97)) (fun _ => WriteRes.err) 0).counter = 0 ∧
    (handle_client 5 [(5, ClientState.with_stream)]
        (.ok (List.replicate 256 97)) (fun _ => WriteRes.err) 0).clients
      = registry_set 5
          (ClientState.mk BUFFER_SIZE 0
            (writeBytes (List.replicate BUFFER_SIZE 0) 0 (List.replicate 256 97)))
          [(5, ClientState.with_stream)] ∧
    (∀ (r' : ReadOutcome) (w' : Int → WriteRes) (counter' : Nat),
      (∀ d, r' = ReadOutcome.ok d → d.length = 0) →
      (handle_client 5 (handle_client 5 [(5, ClientState.with_stream)]
          (.ok (List.replicate 256 97)) (fun _ => WriteRes.err) 0).clients
          r' w' counter').atts = []) :=
  full_read_without_newline_no_broadcast 5 [(5, ClientState.with_stream)]
    (fun _ => WriteRes.err) 0 (List.replicate 256 97) rfl (by decide)
    (by decide)

end EpollServer
